import Mathlib

/-!
Verification development for the file-preview core of the delta-viewer
repository (src/delta_viewer.py, class FileViewers).

The decoders are shallowly embedded as total Lean functions.  Calls into
external parsing libraries (pandas.read_csv, pyarrow.parquet.read_table,
fastavro.reader, json.loads, xml.etree.ElementTree.fromstring, bytes.decode)
are modelled by passing the parse outcome in as an explicit argument of an
Except/outcome type: the Lean definitions embed everything the repository
itself computes after (and around) those calls.  String-valued metadata
fields that no verified property mentions (the Parquet and Avro schema
text, the JSON raw_json sample, the xml_info attached to XML table
results) are omitted from the embedded result type; the json_raw content
string, which the source produces by serializing a parsed value, is
modelled by the value being serialized.
-/

/-- Python string comparison is lexicographic on code points.  Core String
order does not reduce in the kernel, so we embed the comparison directly
over the character lists. -/
def lexLt : List Char → List Char → Bool
  | _, [] => false
  | [], _ :: _ => true
  | a :: as, b :: bs => a.toNat < b.toNat || (a == b && lexLt as bs)

/-- Lexicographic order on strings, as Python `sorted` uses. -/
def strLt (a b : String) : Bool := lexLt a.data b.data

/-- Insert a string into a strictly sorted list, keeping it strictly
sorted (duplicates dropped). -/
def insertSD (x : String) : List String → List String
  | [] => [x]
  | y :: ys => if strLt x y then x :: y :: ys else if x = y then y :: ys else y :: insertSD x ys

/-- `sorted(list(set(l)))` from the source: the distinct elements of `l`
in increasing lexicographic order. -/
def sortedDedup (l : List String) : List String := l.foldr insertSD []

/-- Parsed JSON values as produced by `json.loads`.  Numbers are modelled
as integers; no verified property depends on numeric representation. -/
inductive JVal : Type where
  | obj (fields : List (String × JVal))
  | arr (elems : List JVal)
  | str (s : String)
  | num (n : Int)
  | bool (b : Bool)
  | null

/-- The `file_info` mapping attached by `FileViewers.view_raw`. -/
structure FileInfo where
  name : String
  extension : String
  size_bytes : Nat
  content_type : String
  truncated : Bool
  max_bytes : Nat

/-- The result dictionaries returned by the decoders of
`FileViewers`, one constructor per value of the `type` key. -/
inductive ViewResult (α : Type) where
  | table (data : List (List (String × α))) (columns : List String)
      (total_rows : Nat) (truncated : Bool) (max_rows : Nat)
  | json_raw (content : JVal) (size : Nat)
  | xml_raw (content : String) (root_tag : String) (structureTag : String)
      (child_count : Option Nat) (has_text : Option Bool)
  | raw_text (content : String) (info : FileInfo)
  | raw_binary (content : String) (info : FileInfo) (hex_preview_bytes : Nat)
  | error (message : String)

def tableData : ViewResult α → Option (List (List (String × α)))
  | .table d _ _ _ _ => some d
  | _ => none

def tableColumns : ViewResult α → Option (List String)
  | .table _ c _ _ _ => some c
  | _ => none

def tableTotalRows : ViewResult α → Option Nat
  | .table _ _ t _ _ => some t
  | _ => none

def tableTruncated : ViewResult α → Option Bool
  | .table _ _ _ t _ => some t
  | _ => none

def errMsg : ViewResult α → Option String
  | .error m => some m
  | _ => none

def isErr : ViewResult α → Bool
  | .error _ => true
  | _ => false

def rawInfo : ViewResult α → Option FileInfo
  | .raw_text _ i => some i
  | .raw_binary _ i _ => some i
  | _ => none

def rawBinContent : ViewResult α → Option String
  | .raw_binary c _ _ => some c
  | _ => none

/-- A parsed data frame: the column names of `df.columns` plus the row
dictionaries of `df.to_dict -/
structure DF (α : Type) where
  columns : List String
  rows : List (List (String × α))

/-- `FileViewers.view_csv`, with the outcome of `pd.read_csv` as input. -/
def view_csv (parsed : Except String (DF α)) (max_rows : Nat) : ViewResult α :=
  match parsed with
  | .error e => .error ("Error reading CSV: " ++ e)
  | .ok df =>
    let rows := if df.rows.length > max_rows then df.rows.take max_rows else df.rows
    let truncated := decide (df.rows.length > max_rows)
    .table rows df.columns rows.length truncated max_rows

/-- `FileViewers.view_parquet`, with the outcome of
`pq.read_table(...).to_pandas()` as input (schema text omitted). -/
def view_parquet (parsed : Except String (DF α)) (max_rows : Nat) : ViewResult α :=
  match parsed with
  | .error e => .error ("Error reading Parquet: " ++ e)
  | .ok df =>
    let rows := if df.rows.length > max_rows then df.rows.take max_rows else df.rows
    let truncated := decide (df.rows.length > max_rows)
    .table rows df.columns rows.length truncated max_rows

/-- `FileViewers.view_avro`, with the record stream of `fastavro.reader`
as input.  The enumerate/break loop keeps exactly the records with index
below `max_rows`, i.e. `take max_rows` (schema text omitted). -/
def view_avro (parsed : Except String (List (List (String × α)))) (max_rows : Nat) :
    ViewResult α :=
  match parsed with
  | .error e => .error ("Error reading Avro: " ++ e)
  | .ok stream =>
    let records := stream.take max_rows
    let truncated := decide (records.length = max_rows)
    let columns := match records with
      | [] => []
      | r :: _ => r.map Prod.fst
    .table records columns records.length truncated max_rows

/-- Outcome of `content.decode` followed by `json.loads` in
`FileViewers.view_json`: a parsed value, a `json.JSONDecodeError`, or a
`UnicodeDecodeError`. -/
inductive JsonOutcome where
  | ok (v : JVal)
  | syntaxError (e : String)
  | encodingError (e : String)

/-- The keys of a JSON object (`item.keys()` guarded by
`isinstance(item, dict)`); non-objects contribute no keys. -/
def objKeys : JVal → List String
  | .obj l => l.map Prod.fst
  | _ => []

/-- `isinstance(item, dict)`. -/
def isObj : JVal → Bool
  | .obj _ => true
  | _ => false

/-- `item.get(col, ...)` on a parsed JSON object, with the empty string
default used by the source. -/
def dget (l : List (String × JVal)) (c : String) : JVal :=
  match l.find? (fun p => p.1 == c) with
  | some p => p.2
  | none => JVal.str ""

/-- One normalized row of the JSON array branch:
every discovered column, absent keys mapped to the empty string. -/
def normalizeRow (columns : List String) (l : List (String × JVal)) :
    List (String × JVal) :=
  columns.map (fun c => (c, dget l c))

/-- `FileViewers.view_json`.  In the single-object branch the source
stores `json.dumps(v)` or `str(v)` in the value cell; the embedding keeps
the value being serialized. -/
def view_json (out : JsonOutcome) (max_rows : Nat) : ViewResult JVal :=
  match out with
  | .syntaxError e => .error ("Invalid JSON format: " ++ e)
  | .encodingError e => .error ("Unable to decode file as UTF-8: " ++ e)
  | .ok data =>
    match data with
    | .arr elems =>
      match elems with
      | firstE :: _ =>
        if isObj firstE then
          let columns := sortedDedup (elems.flatMap objKeys)
          let display_data := elems.take max_rows
          let truncated := decide (elems.length > max_rows)
          let normalized_data := display_data.filterMap (fun item =>
            match item with
            | .obj l => some (normalizeRow columns l)
            | _ => none)
          .table normalized_data columns display_data.length truncated max_rows
        else
          .json_raw (JVal.arr elems) elems.length
      | [] => .json_raw (JVal.arr []) 0
    | .obj fields =>
      let display_items := fields.take max_rows
      let truncated := decide (fields.length > max_rows)
      let table_data := display_items.map (fun p => [("key", JVal.str p.1), ("value", p.2)])
      .table table_data ["key", "value"] display_items.length truncated max_rows
    | v => .json_raw v 1

/-- An `xml.etree.ElementTree` element: tag, attributes in document
order, direct text (the empty string models `None`), and child
elements. -/
inductive XElem : Type where
  | mk (tag : String) (attrib : List (String × String)) (text : String)
      (children : List XElem)

def XElem.tag : XElem → String
  | .mk t _ _ _ => t

def XElem.attrib : XElem → List (String × String)
  | .mk _ a _ _ => a

def XElem.text : XElem → String
  | .mk _ _ t _ => t

def XElem.children : XElem → List XElem
  | .mk _ _ _ c => c

/-- Python `str.strip()` over the ASCII whitespace characters.  (Python
also strips further Unicode space characters; no verified property
depends on the exact whitespace set.) -/
def isSpaceB (c : Char) : Bool :=
  c == ' ' || c == '\t' || c == '\n' || c == '\r' || Char.ofNat 11 == c || Char.ofNat 12 == c

/-- `s.strip()`. -/
def stripS (s : String) : String :=
  String.mk (((s.data.dropWhile isSpaceB).reverse.dropWhile isSpaceB).reverse)

/-- The column keys the sampling pass of `FileViewers.view_xml` adds to
`all_columns` for one child, in discovery order: attribute keys as
`@attr`, `_text` when the stripped direct text is non-empty, then per
sub-element its tag (when its stripped text is non-empty) and its
attribute keys as `tag@attr`. -/
def childFields (c : XElem) : List String :=
  c.attrib.map (fun p => "@" ++ p.1)
    ++ (if stripS c.text ≠ "" then ["_text"] else [])
    ++ c.children.flatMap (fun sub =>
        (if stripS sub.text ≠ "" then [sub.tag] else [])
          ++ sub.attrib.map (fun p => sub.tag ++ "@" ++ p.1))

/-- `record[key] = value` guarded by `if key in record`: update every
binding of `key`, leave the row unchanged when the key is absent. -/
def setIfPresent (k : String) (v : String) (row : List (String × String)) :
    List (String × String) :=
  row.map (fun p => if p.1 = k then (k, v) else p)

/-- The inner loop body of the row-build pass for one sub-element of a
child: its stripped text under its tag when non-empty, then its
attributes under `tag@attr` keys, each write guarded by key presence. -/
def applySubElem (r : List (String × String)) (sub : XElem) : List (String × String) :=
  let ra := if stripS sub.text ≠ "" then setIfPresent sub.tag (stripS sub.text) r else r
  sub.attrib.foldl (fun r2 p => setIfPresent (sub.tag ++ "@" ++ p.1) p.2 r2) ra

/-- The row-build pass of `FileViewers.view_xml` for one child: a row
initialized with the empty string for every discovered column, then
populated from the attributes, the direct text, and the sub-elements of
the child, in source order. -/
def buildRecord (columns : List String) (child : XElem) : List (String × String) :=
  let r0 := columns.map (fun c => (c, ""))
  let r1 := child.attrib.foldl (fun r p => setIfPresent ("@" ++ p.1) p.2 r) r0
  let r2 := if stripS child.text ≠ "" then setIfPresent "_text" (stripS child.text) r1 else r1
  child.children.foldl applySubElem r2

/-- Outcome of `content.decode` followed by `ET.fromstring` in
`FileViewers.view_xml`: the decoded text with its parsed root, a
`ET.ParseError`, or a `UnicodeDecodeError`. -/
inductive XmlOutcome where
  | ok (content_str : String) (root : XElem)
  | parseError (e : String)
  | encodingError (e : String)

/-- `FileViewers.view_xml` (the xml_info attached to the table branch is
omitted; the xml_raw branches keep root tag, structure classification,
child count and has_text). -/
def view_xml (out : XmlOutcome) (max_rows : Nat) : ViewResult String :=
  match out with
  | .parseError e => .error ("Invalid XML format: " ++ e)
  | .encodingError e => .error ("Unable to decode file as UTF-8: " ++ e)
  | .ok content_str root =>
    match root.children with
    | [] =>
      .xml_raw content_str root.tag "simple" none (some (decide (stripS root.text ≠ "")))
    | c0 :: _ =>
      let children := root.children
      if (children.take 10).all (fun c => c.tag == c0.tag) then
        let sample_size := min 50 children.length
        let all_columns := (children.take sample_size).flatMap childFields
        let columns := sortedDedup all_columns
        let display_children := children.take max_rows
        let truncated := decide (children.length > max_rows)
        let records := display_children.map (buildRecord columns)
        .table records columns records.length truncated max_rows
      else
        .xml_raw content_str root.tag "mixed" (some children.length) none

/-- One byte of a continuation position in UTF-8. -/
def utf8Cont (b : Nat) : Bool := 0x80 ≤ b && b ≤ 0xBF

/-- Strict UTF-8 decoding of a byte sequence, as `bytes.decode` performs
it: rejects overlong encodings, surrogate code points and values above
0x10FFFF; `none` models `UnicodeDecodeError`. -/
def utf8Decode : List Nat → Option (List Char)
  | [] => some []
  | b :: rest =>
    if b ≤ 0x7F then
      (utf8Decode rest).map (fun cs => Char.ofNat b :: cs)
    else if 0xC2 ≤ b && b ≤ 0xDF then
      match rest with
      | b1 :: r =>
        if utf8Cont b1 then
          (utf8Decode r).map (fun cs => Char.ofNat ((b - 0xC0) * 0x40 + (b1 - 0x80)) :: cs)
        else none
      | [] => none
    else if b == 0xE0 then
      match rest with
      | b1 :: b2 :: r =>
        if (0xA0 ≤ b1 && b1 ≤ 0xBF) && utf8Cont b2 then
          (utf8Decode r).map (fun cs =>
            Char.ofNat ((b1 - 0x80) * 0x40 + (b2 - 0x80) + 0x800) :: cs)
        else none
      | _ => none
    else if (0xE1 ≤ b && b ≤ 0xEF) && b ≠ 0xED then
      match rest with
      | b1 :: b2 :: r =>
        if utf8Cont b1 && utf8Cont b2 then
          (utf8Decode r).map (fun cs =>
            Char.ofNat ((b - 0xE0) * 0x1000 + (b1 - 0x80) * 0x40 + (b2 - 0x80)) :: cs)
        else none
      | _ => none
    else if b == 0xED then
      match rest with
      | b1 :: b2 :: r =>
        if (0x80 ≤ b1 && b1 ≤ 0x9F) && utf8Cont b2 then
          (utf8Decode r).map (fun cs =>
            Char.ofNat (0xD000 + (b1 - 0x80) * 0x40 + (b2 - 0x80)) :: cs)
        else none
      | _ => none
    else if b == 0xF0 then
      match rest with
      | b1 :: b2 :: b3 :: r =>
        if (0x90 ≤ b1 && b1 ≤ 0xBF) && (utf8Cont b2 && utf8Cont b3) then
          (utf8Decode r).map (fun cs =>
            Char.ofNat ((b1 - 0x80) * 0x1000 + (b2 - 0x80) * 0x40 + (b3 - 0x80) + 0x10000) :: cs)
        else none
      | _ => none
    else if 0xF1 ≤ b && b ≤ 0xF3 then
      match rest with
      | b1 :: b2 :: b3 :: r =>
        if utf8Cont b1 && (utf8Cont b2 && utf8Cont b3) then
          (utf8Decode r).map (fun cs =>
            Char.ofNat ((b - 0xF0) * 0x40000 + (b1 - 0x80) * 0x1000
              + (b2 - 0x80) * 0x40 + (b3 - 0x80)) :: cs)
        else none
      | _ => none
    else if b == 0xF4 then
      match rest with
      | b1 :: b2 :: b3 :: r =>
        if (0x80 ≤ b1 && b1 ≤ 0x8F) && (utf8Cont b2 && utf8Cont b3) then
          (utf8Decode r).map (fun cs =>
            Char.ofNat (0x100000 + (b1 - 0x80) * 0x1000 + (b2 - 0x80) * 0x40 + (b3 - 0x80)) :: cs)
        else none
      | _ => none
    else none

/-- `s.lower()` over the character list. -/
def toLowerS (s : String) : String := String.mk (s.data.map Char.toLower)

/-- Whether `p` is an initial segment of `l`. -/
def startsWithB : List Char → List Char → Bool
  | [], _ => true
  | _ :: _, [] => false
  | a :: as, b :: bs => a == b && startsWithB as bs

/-- Python substring containment `needle in hay`. -/
def containsSeq (needle : List Char) : List Char → Bool
  | [] => startsWithB needle []
  | c :: t => startsWithB needle (c :: t) || containsSeq needle t

/-- The content-type classification of the text branch of
`FileViewers.view_raw`: marker substrings scanned in source order. -/
def classifyText (t : String) : String :=
  let lower := toLowerS t
  if ["<html", "<?xml", "def ", "class ", "import ", "function"].any
      (fun k => containsSeq k.data lower.data) then
    if containsSeq "<html".data lower.data then "html"
    else if containsSeq "<?xml".data lower.data then "xml"
    else if ["def ", "import ", "class "].any (fun k => containsSeq k.data t.data) then "code"
    else "text"
  else "text"

/-- One lowercase hex digit. -/
def hexDigitC (n : Nat) : Char := if n < 10 then Char.ofNat (48 + n) else Char.ofNat (87 + n)

/-- Python format spec `02x` applied to one byte. -/
def hex2 (b : Nat) : String := String.mk [hexDigitC (b / 16 % 16), hexDigitC (b % 16)]

/-- Python format spec `08x` applied to a line offset. -/
def hex8 (i : Nat) : String :=
  String.mk ((List.range 8).map (fun j => hexDigitC (i / 16 ^ (7 - j) % 16)))

/-- Python `sep.join(parts)`. -/
def joinSep (sep : String) : List String → String
  | [] => ""
  | [s] => s
  | s :: r1 :: rest => s ++ sep ++ joinSep sep (r1 :: rest)

/-- The hex column of one dump line: the bytes of the chunk in `02x`
form joined by single spaces. -/
def hexPart (chunk : List Nat) : String := joinSep " " (chunk.map hex2)

/-- The ASCII gutter of one dump line: printable bytes as themselves, a
dot for every byte outside 0x20..0x7E. -/
def asciiPart (chunk : List Nat) : String :=
  String.mk (chunk.map (fun b => if 32 ≤ b && b ≤ 126 then Char.ofNat b else '.'))

/-- Python format spec `<48`: pad right with spaces to width 48 (never
truncates). -/
def padRight (w : Nat) (s : String) : String :=
  s ++ String.mk (List.replicate (w - s.length) ' ')

/-- The slice `display_content[i:i+16]` rendered on line `k` (`i = 16*k`). -/
def hexChunk (dc : List Nat) (k : Nat) : List Nat := (dc.drop (16 * k)).take 16

/-- One dump line: offset in `08x` form, two spaces, the hex column
padded to width 48, a space, and the ASCII gutter between bars. -/
def hexLine (i : Nat) (chunk : List Nat) : String :=
  hex8 i ++ "  " ++ padRight 48 (hexPart chunk) ++ " |" ++ asciiPart chunk ++ "|"

/-- Number of dump lines: `range(0, min(len(dc), 1024), 16)`. -/
def hexLineCount (dc : List Nat) : Nat := (min dc.length 1024 + 15) / 16

/-- All dump lines of the binary branch of `FileViewers.view_raw`. -/
def hexLines (dc : List Nat) : List String :=
  (List.range (hexLineCount dc)).map (fun k => hexLine (16 * k) (hexChunk dc k))

/-- `FileViewers.view_raw`: bytes as a list of natural numbers below 256,
the filename hint, and the byte cap (source default 50000). -/
def view_raw (content : List Nat) (file_path : String) (max_bytes : Nat) : ViewResult Unit :=
  let file_size := content.length
  let file_name := (file_path.splitOn "/").getLastD ""
  let file_ext :=
    if file_name.contains '.' then toLowerS ((file_name.splitOn ".").getLastD "")
    else "unknown"
  let display_content := if content.length > max_bytes then content.take max_bytes else content
  let truncated := decide (content.length > max_bytes)
  match utf8Decode display_content with
  | some chars =>
    let text_content := String.mk chars
    .raw_text text_content
      ⟨file_name, file_ext, file_size, classifyText text_content, truncated, max_bytes⟩
  | none =>
    .raw_binary (joinSep "\n" (hexLines display_content))
      ⟨file_name, file_ext, file_size, "binary", truncated, max_bytes⟩
      (min display_content.length 1024)

/-- `record[col]` on an embedded row: the value of the first binding of
`col`, if any. -/
def rlookup (row : List (String × String)) (c : String) : Option String :=
  match row with
  | [] => none
  | p :: t => if p.1 == c then some p.2 else rlookup t c

/-! Helper lemmas about the lexicographic order and `sortedDedup`. -/

theorem lexLt_trans (a : List Char) : ∀ b c, lexLt a b = true → lexLt b c = true →
    lexLt a c = true := by
  induction a with
  | nil =>
    intro b c h1 h2
    cases c with
    | nil => cases b <;> simp [lexLt] at h2
    | cons z zs => simp [lexLt]
  | cons x xs ih =>
    intro b c h1 h2
    cases b with
    | nil => simp [lexLt] at h1
    | cons y ys =>
      cases c with
      | nil => simp [lexLt] at h2
      | cons z zs =>
        simp only [lexLt, Bool.or_eq_true, Bool.and_eq_true, decide_eq_true_eq,
          beq_iff_eq] at h1 h2 ⊢
        rcases h1 with h1 | ⟨hxy, h1⟩
        · rcases h2 with h2 | ⟨hyz, h2⟩
          · exact Or.inl (Nat.lt_trans h1 h2)
          · subst hyz; exact Or.inl h1
        · subst hxy
          rcases h2 with h2 | ⟨hyz, h2⟩
          · exact Or.inl h2
          · subst hyz; exact Or.inr ⟨rfl, ih _ _ h1 h2⟩

theorem lexLt_total (a : List Char) : ∀ b, lexLt a b = false → a ≠ b →
    lexLt b a = true := by
  induction a with
  | nil =>
    intro b h1 h2
    cases b with
    | nil => exact absurd rfl h2
    | cons y ys => simp [lexLt] at h1
  | cons x xs ih =>
    intro b h1 h2
    cases b with
    | nil => simp [lexLt]
    | cons y ys =>
      have h1' : ¬ (x.toNat < y.toNat ∨ (x = y ∧ lexLt xs ys = true)) := by
        intro hc
        have ht : lexLt (x :: xs) (y :: ys) = true := by
          simp only [lexLt, Bool.or_eq_true, Bool.and_eq_true, decide_eq_true_eq, beq_iff_eq]
          exact hc
        rw [h1] at ht
        exact Bool.false_ne_true ht
      push_neg at h1'
      simp only [lexLt, Bool.or_eq_true, Bool.and_eq_true, decide_eq_true_eq, beq_iff_eq]
      rcases Nat.lt_trichotomy x.toNat y.toNat with h | h | h
      · exact absurd h (Nat.not_lt.mpr h1'.1)
      · have hxy : x = y := Char.ext (UInt32.ext h)
        subst hxy
        have hne : xs ≠ ys := fun he => h2 (by rw [he])
        have hf : lexLt xs ys = false := by
          cases hl : lexLt xs ys with
          | false => rfl
          | true => exact absurd hl (h1'.2 rfl)
        exact Or.inr ⟨rfl, ih ys hf hne⟩
      · exact Or.inl h

theorem strLt_trans (a b c : String) (h1 : strLt a b = true) (h2 : strLt b c = true) :
    strLt a c = true :=
  lexLt_trans a.data b.data c.data h1 h2

theorem strLt_total (a b : String) (h1 : strLt a b = false) (h2 : a ≠ b) :
    strLt b a = true := by
  refine lexLt_total a.data b.data h1 (fun he => h2 ?_)
  cases a; cases b
  exact congrArg String.mk (by simpa using he)

theorem mem_insertSD (x : String) : ∀ (l : List String) (y : String),
    y ∈ insertSD x l ↔ y = x ∨ y ∈ l := by
  intro l
  induction l with
  | nil => intro y; simp [insertSD]
  | cons h t ih =>
    intro y
    simp only [insertSD]
    by_cases h1 : strLt x h = true
    · simp [h1]
    · simp only [h1, if_false, Bool.false_eq_true]
      by_cases h2 : x = h
      · subst h2
        simp only [if_true]
        constructor
        · intro hm; exact Or.inr hm
        · rintro (rfl | hm)
          · exact List.mem_cons_self ..
          · exact hm
      · simp only [h2, if_false, List.mem_cons, ih]
        tauto

theorem pairwise_insertSD (x : String) : ∀ (l : List String),
    List.Pairwise (fun a b => strLt a b = true) l →
    List.Pairwise (fun a b => strLt a b = true) (insertSD x l) := by
  intro l
  induction l with
  | nil => intro _; simp [insertSD]
  | cons h t ih =>
    intro hp
    rw [List.pairwise_cons] at hp
    obtain ⟨hh, ht⟩ := hp
    simp only [insertSD]
    by_cases h1 : strLt x h = true
    · simp only [h1, if_true]
      rw [List.pairwise_cons]
      refine ⟨?_, List.pairwise_cons.mpr ⟨hh, ht⟩⟩
      intro z hz
      rcases List.mem_cons.mp hz with rfl | hz
      · exact h1
      · exact strLt_trans x h z h1 (hh z hz)
    · simp only [h1, if_false, Bool.false_eq_true]
      by_cases h2 : x = h
      · simp only [h2, if_true]
        exact List.pairwise_cons.mpr ⟨hh, ht⟩
      · simp only [h2, if_false]
        rw [List.pairwise_cons]
        refine ⟨?_, ih ht⟩
        intro z hz
        rcases (mem_insertSD x t z).mp hz with heq | hz
        · rw [heq]
          exact strLt_total x h (Bool.not_eq_true _ ▸ h1) h2
        · exact hh z hz

theorem mem_sortedDedup (l : List String) (y : String) :
    y ∈ sortedDedup l ↔ y ∈ l := by
  induction l with
  | nil => simp [sortedDedup]
  | cons h t ih =>
    show y ∈ insertSD h (sortedDedup t) ↔ _
    rw [mem_insertSD]
    simp [ih]

theorem pairwise_sortedDedup (l : List String) :
    List.Pairwise (fun a b => strLt a b = true) (sortedDedup l) := by
  induction l with
  | nil => simp [sortedDedup]
  | cons h t ih => exact pairwise_insertSD h (sortedDedup t) ih

/-! General helper lemmas. -/

theorem append_ne_empty (a b : String) (h : a.data ≠ []) : a ++ b ≠ "" := by
  intro hc
  have hd : a.data ++ b.data = ([] : List Char) := by
    have := congrArg String.data hc
    rwa [String.data_append] at this
  rcases List.append_eq_nil.mp hd with ⟨h1, _⟩
  exact h h1

theorem length_filterMap_objRows (columns : List String) (l : List JVal) :
    (l.filterMap (fun item => match item with
      | JVal.obj o => some (normalizeRow columns o)
      | _ => none)).length = l.countP (fun v => isObj v) := by
  induction l with
  | nil => rfl
  | cons v vs ih =>
    cases v <;> simp [List.filterMap_cons, List.countP_cons, isObj, ih]

/-- Claim C2: every decoder is a total function on its input domain (the
totality of the Lean embeddings models that no exception escapes to the
caller); every decoder-local failure outcome maps to an Error result
with a non-empty message; the JSON decoder message distinguishes
invalid-syntax failures from UTF-8 encoding failures; and the raw
decoder never yields an Error result. -/
theorem claim_C2 :
    (∀ (e : String) (cap : Nat),
        isErr (view_csv (Except.error e : Except String (DF Unit)) cap) = true
        ∧ (errMsg (view_csv (Except.error e : Except String (DF Unit)) cap)).getD "" ≠ "")
  ∧ (∀ (e : String) (cap : Nat),
        isErr (view_parquet (Except.error e : Except String (DF Unit)) cap) = true
        ∧ (errMsg (view_parquet (Except.error e : Except String (DF Unit)) cap)).getD "" ≠ "")
  ∧ (∀ (e : String) (cap : Nat),
        isErr (view_avro (Except.error e : Except String (List (List (String × Unit)))) cap) = true
        ∧ (errMsg (view_avro (Except.error e : Except String (List (List (String × Unit)))) cap)).getD ""
            ≠ "")
  ∧ (∀ (e : String) (cap : Nat),
        isErr (view_json (JsonOutcome.syntaxError e) cap) = true
        ∧ (errMsg (view_json (JsonOutcome.syntaxError e) cap)).getD "" ≠ "")
  ∧ (∀ (e : String) (cap : Nat),
        isErr (view_json (JsonOutcome.encodingError e) cap) = true
        ∧ (errMsg (view_json (JsonOutcome.encodingError e) cap)).getD "" ≠ "")
  ∧ (∀ (e : String) (cap : Nat),
        isErr (view_xml (XmlOutcome.parseError e) cap) = true
        ∧ (errMsg (view_xml (XmlOutcome.parseError e) cap)).getD "" ≠ "")
  ∧ (∀ (e : String) (cap : Nat),
        isErr (view_xml (XmlOutcome.encodingError e) cap) = true
        ∧ (errMsg (view_xml (XmlOutcome.encodingError e) cap)).getD "" ≠ "")
  ∧ (∀ (e1 e2 : String) (cap1 cap2 : Nat),
        errMsg (view_json (JsonOutcome.syntaxError e1) cap1)
          ≠ errMsg (view_json (JsonOutcome.encodingError e2) cap2))
  ∧ (∀ (content : List Nat) (path : String) (cap : Nat),
        isErr (view_raw content path cap) = false) := by
  refine ⟨?_, ?_, ?_, ?_, ?_, ?_, ?_, ?_, ?_⟩
  · exact fun e cap => ⟨rfl, append_ne_empty _ _ (by decide)⟩
  · exact fun e cap => ⟨rfl, append_ne_empty _ _ (by decide)⟩
  · exact fun e cap => ⟨rfl, append_ne_empty _ _ (by decide)⟩
  · exact fun e cap => ⟨rfl, append_ne_empty _ _ (by decide)⟩
  · exact fun e cap => ⟨rfl, append_ne_empty _ _ (by decide)⟩
  · exact fun e cap => ⟨rfl, append_ne_empty _ _ (by decide)⟩
  · exact fun e cap => ⟨rfl, append_ne_empty _ _ (by decide)⟩
  · intro e1 e2 cap1 cap2 h
    have h2 : ("Invalid JSON format: " ++ e1) = ("Unable to decode file as UTF-8: " ++ e2) :=
      Option.some.inj h
    have hd : ("Invalid JSON format: " ++ e1).data.getD 0 ' '
        = ("Unable to decode file as UTF-8: " ++ e2).data.getD 0 ' ' :=
      congrArg (fun s => s.data.getD 0 ' ') h2
    have hL : (("Invalid JSON format: " ++ e1).data.getD 0 ' ') = 'I' := by
      rw [String.data_append]; rfl
    have hR : (("Unable to decode file as UTF-8: " ++ e2).data.getD 0 ' ') = 'U' := by
      rw [String.data_append]; rfl
    rw [hL, hR] at hd
    exact absurd hd (by decide)
  · intro content path cap
    cases hu : utf8Decode (if content.length > cap then content.take cap else content) <;>
      simp [view_raw, isErr, hu]

/-- Claim C9: the raw decoder is deterministic: equal byte content, equal
filename and equal byte cap give identical results.  (The embedded
decoder is a pure function; the theorem states the hyperproperty as two
invocations over equal inputs.) -/
theorem claim_C9 : ∀ (c1 c2 : List Nat) (p1 p2 : String) (b1 b2 : Nat),
    c1 = c2 → p1 = p2 → b1 = b2 → view_raw c1 p1 b1 = view_raw c2 p2 b2 := by
  intro c1 c2 p1 p2 b1 b2 hc hp hb
  rw [hc, hp, hb]

theorem claim_C9_wit : view_raw [255, 0] "data.bin" 50000 = view_raw [255, 0] "data.bin" 50000 :=
  claim_C9 [255, 0] [255, 0] "data.bin" "data.bin" 50000 50000 rfl rfl rfl

/-- Claim C1 counterexample: a well-formed Avro input with exactly
`N = rowCap` records (here one record, rowCap 1) is reported truncated,
contradicting the claim that `N ≤ rowCap` yields `truncated = false` for
every table-format decoder. -/
theorem claim_C1_cex :
    (1 : Nat) ≤ 1
    ∧ tableTruncated
        (view_avro (Except.ok [[("a", ())]] : Except String (List (List (String × Unit)))) 1)
        = some true
    ∧ tableTotalRows
        (view_avro (Except.ok [[("a", ())]] : Except String (List (List (String × Unit)))) 1)
        = some 1 :=
  ⟨le_refl 1, rfl, rfl⟩

/-- Claim C1 (amended): for the CSV, Parquet, JSON (array-of-objects and
single-object) and XML table decoders, a well-formed input with `N`
records yields `truncated = false` and `totalRowsEmitted = N` when
`N ≤ rowCap`, and `truncated = true` with `totalRowsEmitted = rowCap`
when `N > rowCap`.  For the Avro decoder the same holds when
`N < rowCap` and when `N > rowCap`, but at `N = rowCap` it yields
`truncated = true` (with `totalRowsEmitted = rowCap = N`). -/
theorem claim_C1 :
    (∀ (df : DF Unit) (cap : Nat),
        (df.rows.length ≤ cap →
          tableTruncated (view_csv (Except.ok df) cap) = some false
          ∧ tableTotalRows (view_csv (Except.ok df) cap) = some df.rows.length)
        ∧ (df.rows.length > cap →
          tableTruncated (view_csv (Except.ok df) cap) = some true
          ∧ tableTotalRows (view_csv (Except.ok df) cap) = some cap))
  ∧ (∀ (df : DF Unit) (cap : Nat),
        (df.rows.length ≤ cap →
          tableTruncated (view_parquet (Except.ok df) cap) = some false
          ∧ tableTotalRows (view_parquet (Except.ok df) cap) = some df.rows.length)
        ∧ (df.rows.length > cap →
          tableTruncated (view_parquet (Except.ok df) cap) = some true
          ∧ tableTotalRows (view_parquet (Except.ok df) cap) = some cap))
  ∧ (∀ (rs : List (List (String × Unit))) (cap : Nat),
        (rs.length < cap →
          tableTruncated (view_avro (Except.ok rs) cap) = some false
          ∧ tableTotalRows (view_avro (Except.ok rs) cap) = some rs.length)
        ∧ (rs.length = cap →
          tableTruncated (view_avro (Except.ok rs) cap) = some true
          ∧ tableTotalRows (view_avro (Except.ok rs) cap) = some cap)
        ∧ (rs.length > cap →
          tableTruncated (view_avro (Except.ok rs) cap) = some true
          ∧ tableTotalRows (view_avro (Except.ok rs) cap) = some cap))
  ∧ (∀ (o0 : List (String × JVal)) (os : List (List (String × JVal))) (cap : Nat),
        (os.length + 1 ≤ cap →
          tableTruncated (view_json (JsonOutcome.ok (JVal.arr ((o0 :: os).map JVal.obj))) cap)
            = some false
          ∧ tableTotalRows (view_json (JsonOutcome.ok (JVal.arr ((o0 :: os).map JVal.obj))) cap)
            = some (os.length + 1))
        ∧ (os.length + 1 > cap →
          tableTruncated (view_json (JsonOutcome.ok (JVal.arr ((o0 :: os).map JVal.obj))) cap)
            = some true
          ∧ tableTotalRows (view_json (JsonOutcome.ok (JVal.arr ((o0 :: os).map JVal.obj))) cap)
            = some cap))
  ∧ (∀ (fields : List (String × JVal)) (cap : Nat),
        (fields.length ≤ cap →
          tableTruncated (view_json (JsonOutcome.ok (JVal.obj fields)) cap) = some false
          ∧ tableTotalRows (view_json (JsonOutcome.ok (JVal.obj fields)) cap)
            = some fields.length)
        ∧ (fields.length > cap →
          tableTruncated (view_json (JsonOutcome.ok (JVal.obj fields)) cap) = some true
          ∧ tableTotalRows (view_json (JsonOutcome.ok (JVal.obj fields)) cap) = some cap))
  ∧ (∀ (s : String) (root : XElem) (c0 : XElem) (cs : List XElem) (cap : Nat),
        root.children = c0 :: cs →
        ((c0 :: cs).take 10).all (fun c => c.tag == c0.tag) = true →
        ((c0 :: cs).length ≤ cap →
          tableTruncated (view_xml (XmlOutcome.ok s root) cap) = some false
          ∧ tableTotalRows (view_xml (XmlOutcome.ok s root) cap) = some (c0 :: cs).length)
        ∧ ((c0 :: cs).length > cap →
          tableTruncated (view_xml (XmlOutcome.ok s root) cap) = some true
          ∧ tableTotalRows (view_xml (XmlOutcome.ok s root) cap) = some cap)) := by
  refine ⟨?_, ?_, ?_, ?_, ?_, ?_⟩
  · intro df cap
    constructor
    · intro h
      have hnot : ¬ (df.rows.length > cap) := Nat.not_lt.mpr h
      constructor <;> simp [view_csv, tableTruncated, tableTotalRows, hnot]
    · intro h
      constructor <;>
        simp [view_csv, tableTruncated, tableTotalRows, h, List.length_take,
          Nat.min_eq_left (Nat.le_of_lt h)]
  · intro df cap
    constructor
    · intro h
      have hnot : ¬ (df.rows.length > cap) := Nat.not_lt.mpr h
      constructor <;> simp [view_parquet, tableTruncated, tableTotalRows, hnot]
    · intro h
      constructor <;>
        simp [view_parquet, tableTruncated, tableTotalRows, h, List.length_take,
          Nat.min_eq_left (Nat.le_of_lt h)]
  · intro rs cap
    refine ⟨?_, ?_, ?_⟩
    · intro h
      constructor <;>
        simp [view_avro, tableTruncated, tableTotalRows,
          List.take_of_length_le (Nat.le_of_lt h), Nat.ne_of_lt h]
    · intro h
      constructor <;>
        simp [view_avro, tableTruncated, tableTotalRows, List.length_take, h]
    · intro h
      constructor <;>
        simp [view_avro, tableTruncated, tableTotalRows, List.length_take,
          Nat.min_eq_left (Nat.le_of_lt h)]
  · intro o0 os cap
    constructor
    · intro h
      have hnot : ¬ (os.length + 1 > cap) := Nat.not_lt.mpr h
      constructor <;>
        simp [view_json, isObj, tableTruncated, tableTotalRows, List.length_take, hnot,
          Nat.min_eq_right h]
    · intro h
      constructor <;>
        simp [view_json, isObj, tableTruncated, tableTotalRows, List.length_take, h,
          Nat.min_eq_left (Nat.le_of_lt h)]
  · intro fields cap
    constructor
    · intro h
      have hnot : ¬ (fields.length > cap) := Nat.not_lt.mpr h
      constructor <;>
        simp [view_json, tableTruncated, tableTotalRows, List.length_take, hnot,
          Nat.min_eq_right h]
    · intro h
      constructor <;>
        simp [view_json, tableTruncated, tableTotalRows, List.length_take, h,
          Nat.min_eq_left (Nat.le_of_lt h)]
  · intro s root c0 cs cap hch hhom
    constructor
    · intro h
      have h2 : cs.length + 1 ≤ cap := by simpa using h
      have hnot : ¬ (cs.length + 1 > cap) := Nat.not_lt.mpr h2
      constructor <;>
        (simp only [view_xml, hch, hhom]
         simp [tableTruncated, tableTotalRows, List.length_take, hnot,
           Nat.min_eq_right h2])
    · intro h
      have h2 : cs.length + 1 > cap := by simpa using h
      constructor <;>
        (simp only [view_xml, hch, hhom]
         simp [tableTruncated, tableTotalRows, List.length_take, h2,
           Nat.min_eq_left (Nat.le_of_lt h2)])

theorem claim_C1_wit :
    ((2 : Nat) ≤ 3
      ∧ tableTruncated
          (view_csv (Except.ok (DF.mk ["a"] [[("a", ())], [("a", ())]]) : Except String (DF Unit)) 3)
          = some false
      ∧ tableTotalRows
          (view_csv (Except.ok (DF.mk ["a"] [[("a", ())], [("a", ())]]) : Except String (DF Unit)) 3)
          = some 2)
    ∧ ((2 : Nat) > 1
      ∧ tableTruncated
          (view_avro (Except.ok [[("a", ())], [("a", ())]] : Except String (List (List (String × Unit)))) 1)
          = some true
      ∧ tableTotalRows
          (view_avro (Except.ok [[("a", ())], [("a", ())]] : Except String (List (List (String × Unit)))) 1)
          = some 1)
    ∧ tableTruncated
        (view_xml (XmlOutcome.ok "d" (XElem.mk "r" [] "" [XElem.mk "i" [] "" []])) 5)
        = some false := by
  refine ⟨⟨by decide, ?_⟩, ⟨by decide, ?_⟩, ?_⟩
  · exact (claim_C1.1 (DF.mk ["a"] [[("a", ())], [("a", ())]]) 3).1 (by decide)
  · exact (claim_C1.2.2.1 [[("a", ())], [("a", ())]] 1).2.2 (by decide)
  · exact (((claim_C1.2.2.2.2.2 "d" (XElem.mk "r" [] "" [XElem.mk "i" [] "" []])
      (XElem.mk "i" [] "" []) [] 5) rfl rfl).1 (by decide)).1

/-- Claim C4: the Avro decoder flags `truncated` exactly when the number
of records read equals the row cap (so exactly-rowCap files are flagged
although nothing was dropped); columns come from the key set of the
first record read, and zero records give an empty column list. -/
theorem claim_C4 : ∀ (rs : List (List (String × Unit))) (cap : Nat),
    tableTruncated (view_avro (Except.ok rs) cap) = some (decide (min cap rs.length = cap))
  ∧ (rs.length = cap →
      tableTruncated (view_avro (Except.ok rs) cap) = some true
      ∧ tableData (view_avro (Except.ok rs) cap) = some rs)
  ∧ (rs = [] ∨ cap = 0 → tableColumns (view_avro (Except.ok rs) cap) = some [])
  ∧ (∀ r rs2, rs = r :: rs2 → 0 < cap →
      tableColumns (view_avro (Except.ok rs) cap) = some (r.map Prod.fst)) := by
  intro rs cap
  refine ⟨?_, ?_, ?_, ?_⟩
  · simp [view_avro, tableTruncated, List.length_take]
  · intro h
    constructor
    · simp [view_avro, tableTruncated, List.length_take, h]
    · simp [view_avro, tableData, List.take_of_length_le (le_of_eq h)]
  · rintro (rfl | rfl)
    · simp [view_avro, tableColumns]
    · simp [view_avro, tableColumns]
  · rintro r rs2 rfl hcap
    obtain ⟨k, rfl⟩ : ∃ k, cap = k + 1 := ⟨cap - 1, by omega⟩
    simp [view_avro, tableColumns, List.take_succ_cons]

theorem claim_C4_wit :
    tableTruncated
        (view_avro (Except.ok [[("a", ())]] : Except String (List (List (String × Unit)))) 1)
        = some true
    ∧ tableColumns
        (view_avro (Except.ok [[("a", ())], [("b", ())]]
          : Except String (List (List (String × Unit)))) 5)
        = some ["a"]
    ∧ tableColumns
        (view_avro (Except.ok ([] : List (List (String × Unit)))) 5)
        = some [] := by
  refine ⟨((claim_C4 [[("a", ())]] 1).2.1 rfl).1, ?_, ?_⟩
  · exact (claim_C4 [[("a", ())], [("b", ())]] 5).2.2.2 [("a", ())] [[("b", ())]] rfl
      (by decide)
  · exact (claim_C4 [] 5).2.2.1 (Or.inl rfl)

/-- Claim C7 counterexample: a JSON array mixing an object and a
non-object within the displayed slice reports `total_rows = 2` while
only one record is placed in the data list, so `totalRowsEmitted` does
not equal the number of records in `rows`. -/
theorem claim_C7_cex :
    tableTotalRows
        (view_json (JsonOutcome.ok (JVal.arr [JVal.obj [("a", JVal.num 1)], JVal.num 5])) 1000)
        = some 2
    ∧ (Option.getD (tableData
        (view_json (JsonOutcome.ok (JVal.arr [JVal.obj [("a", JVal.num 1)], JVal.num 5])) 1000))
        []).length = 1 :=
  ⟨rfl, rfl⟩

/-- Claim C7 (amended): for CSV, Parquet, Avro, the JSON single-object
table and the XML table, `totalRowsEmitted` equals the number of records
in `rows`.  For the JSON array decoder `totalRowsEmitted` equals the
length of the displayed slice (`min(arrayLength, rowCap)`) whereas
`rows` holds one record per object element of that slice, so the two
differ exactly when a non-object element occurs among the first rowCap
elements. -/
theorem claim_C7 :
    (∀ (df : DF Unit) (cap : Nat),
        tableTotalRows (view_csv (Except.ok df) cap)
          = some ((tableData (view_csv (Except.ok df) cap)).getD []).length)
  ∧ (∀ (df : DF Unit) (cap : Nat),
        tableTotalRows (view_parquet (Except.ok df) cap)
          = some ((tableData (view_parquet (Except.ok df) cap)).getD []).length)
  ∧ (∀ (rs : List (List (String × Unit))) (cap : Nat),
        tableTotalRows (view_avro (Except.ok rs) cap)
          = some ((tableData (view_avro (Except.ok rs) cap)).getD []).length)
  ∧ (∀ (fields : List (String × JVal)) (cap : Nat),
        tableTotalRows (view_json (JsonOutcome.ok (JVal.obj fields)) cap)
          = some ((tableData (view_json (JsonOutcome.ok (JVal.obj fields)) cap)).getD []).length)
  ∧ (∀ (s : String) (root : XElem) (c0 : XElem) (cs : List XElem) (cap : Nat),
        root.children = c0 :: cs →
        ((c0 :: cs).take 10).all (fun c => c.tag == c0.tag) = true →
        tableTotalRows (view_xml (XmlOutcome.ok s root) cap)
          = some ((tableData (view_xml (XmlOutcome.ok s root) cap)).getD []).length)
  ∧ (∀ (v0 : JVal) (rest : List JVal) (cap : Nat), isObj v0 = true →
        tableTotalRows (view_json (JsonOutcome.ok (JVal.arr (v0 :: rest))) cap)
          = some ((v0 :: rest).take cap).length
        ∧ ((tableData (view_json (JsonOutcome.ok (JVal.arr (v0 :: rest))) cap)).getD []).length
          = ((v0 :: rest).take cap).countP (fun v => isObj v)) := by
  refine ⟨?_, ?_, ?_, ?_, ?_, ?_⟩
  · intro df cap; rfl
  · intro df cap; rfl
  · intro rs cap; rfl
  · intro fields cap
    simp [view_json, tableTotalRows, tableData, List.length_map]
  · intro s root c0 cs cap hch hhom
    simp only [view_xml, hch, hhom]
    simp [tableTotalRows, tableData]
  · intro v0 rest cap hobj
    constructor
    · simp [view_json, hobj, tableTotalRows]
    · simp only [view_json, hobj, if_true, tableData, Option.getD_some]
      exact length_filterMap_objRows _ _

theorem claim_C7_wit :
    tableTotalRows
        (view_xml (XmlOutcome.ok "d" (XElem.mk "r" [] "" [XElem.mk "i" [] "" []])) 5)
      = some (Option.getD (tableData
          (view_xml (XmlOutcome.ok "d" (XElem.mk "r" [] "" [XElem.mk "i" [] "" []])) 5))
          []).length
    ∧ tableTotalRows
        (view_json (JsonOutcome.ok (JVal.arr [JVal.obj [("a", JVal.num 1)], JVal.num 5])) 1000)
      = some ([JVal.obj [("a", JVal.num 1)], JVal.num 5].take 1000).length := by
  refine ⟨?_, ?_⟩
  · exact claim_C7.2.2.2.2.1 "d" (XElem.mk "r" [] "" [XElem.mk "i" [] "" []])
      (XElem.mk "i" [] "" []) [] 5 rfl rfl
  · exact (claim_C7.2.2.2.2.2 (JVal.obj [("a", JVal.num 1)]) [JVal.num 5] 1000 rfl).1

theorem keys_normalizeRow (cols : List String) (l : List (String × JVal)) :
    (normalizeRow cols l).map Prod.fst = cols := by
  have hcomp : (Prod.fst ∘ fun c : String => (c, dget l c)) = id := rfl
  rw [normalizeRow, List.map_map, hcomp, List.map_id]

theorem dget_eq_default (l : List (String × JVal)) (c : String)
    (h : c ∉ l.map Prod.fst) : dget l c = JVal.str "" := by
  have hn : l.find? (fun p => p.1 == c) = none := by
    rw [List.find?_eq_none]
    intro x hx
    simp only [beq_iff_eq]
    intro heq
    exact h (List.mem_map.mpr ⟨x, hx, heq⟩)
  simp [dget, hn]

/-- Claim C3: for a JSON array whose first element is an object, the
column set is the sorted union of the keys of every element of the array
(not only the displayed slice), every displayed row carries a value for
every column with the empty string for absent keys, truncation is
`arrayLength > rowCap`, and the worked example from the specification
evaluates as claimed. -/
theorem claim_C3 (first : List (String × JVal)) (rest : List JVal) (cap : Nat) :
    (∀ k,
      k ∈ (tableColumns (view_json (JsonOutcome.ok (JVal.arr (JVal.obj first :: rest))) cap)).getD []
        ↔ ∃ e ∈ JVal.obj first :: rest, k ∈ objKeys e)
  ∧ List.Pairwise (fun a b => strLt a b = true)
      ((tableColumns (view_json (JsonOutcome.ok (JVal.arr (JVal.obj first :: rest))) cap)).getD [])
  ∧ (∀ row ∈ (tableData (view_json (JsonOutcome.ok (JVal.arr (JVal.obj first :: rest))) cap)).getD [],
      row.map Prod.fst
        = (tableColumns (view_json (JsonOutcome.ok (JVal.arr (JVal.obj first :: rest))) cap)).getD [])
  ∧ (∀ row ∈ (tableData (view_json (JsonOutcome.ok (JVal.arr (JVal.obj first :: rest))) cap)).getD [],
      ∃ l, JVal.obj l ∈ (JVal.obj first :: rest).take cap
        ∧ row = normalizeRow
            ((tableColumns (view_json (JsonOutcome.ok (JVal.arr (JVal.obj first :: rest))) cap)).getD []) l
        ∧ ∀ c ∈ (tableColumns (view_json (JsonOutcome.ok (JVal.arr (JVal.obj first :: rest))) cap)).getD [],
            c ∉ l.map Prod.fst → (c, JVal.str "") ∈ row)
  ∧ tableTruncated (view_json (JsonOutcome.ok (JVal.arr (JVal.obj first :: rest))) cap)
      = some (decide ((JVal.obj first :: rest).length > cap))
  ∧ view_json (JsonOutcome.ok (JVal.arr
      [JVal.obj [("a", JVal.num 1)], JVal.obj [("b", JVal.num 2)],
       JVal.obj [("a", JVal.num 3), ("c", JVal.num 4)]])) 2
    = ViewResult.table
        [[("a", JVal.num 1), ("b", JVal.str ""), ("c", JVal.str "")],
         [("a", JVal.str ""), ("b", JVal.num 2), ("c", JVal.str "")]]
        ["a", "b", "c"] 2 true 2 := by
  have hred : view_json (JsonOutcome.ok (JVal.arr (JVal.obj first :: rest))) cap
      = ViewResult.table
          (((JVal.obj first :: rest).take cap).filterMap (fun item =>
            match item with
            | JVal.obj l =>
                some (normalizeRow (sortedDedup ((JVal.obj first :: rest).flatMap objKeys)) l)
            | _ => none))
          (sortedDedup ((JVal.obj first :: rest).flatMap objKeys))
          ((JVal.obj first :: rest).take cap).length
          (decide ((JVal.obj first :: rest).length > cap)) cap := rfl
  refine ⟨?_, ?_, ?_, ?_, ?_, ?_⟩
  · intro k
    rw [hred]
    show k ∈ sortedDedup ((JVal.obj first :: rest).flatMap objKeys) ↔ _
    rw [mem_sortedDedup]
    exact List.mem_flatMap
  · rw [hred]
    exact pairwise_sortedDedup _
  · intro row hrow
    rw [hred] at hrow ⊢
    obtain ⟨item, hitem, hf⟩ := List.mem_filterMap.mp hrow
    cases item <;> simp only [Option.some.injEq, reduceCtorEq] at hf
    rw [← hf]
    exact keys_normalizeRow _ _
  · intro row hrow
    rw [hred] at hrow ⊢
    obtain ⟨item, hitem, hf⟩ := List.mem_filterMap.mp hrow
    cases item <;> simp only [Option.some.injEq, reduceCtorEq] at hf
    case obj l =>
      refine ⟨l, hitem, hf.symm, ?_⟩
      intro c hc hnk
      rw [← hf]
      exact List.mem_map.mpr ⟨c, hc, by rw [dget_eq_default l c hnk]⟩
  · rw [hred]; rfl
  · rfl

theorem claim_C3_wit :
    [("a", JVal.num 1), ("b", JVal.str ""), ("c", JVal.str "")].map Prod.fst
      = (tableColumns (view_json (JsonOutcome.ok (JVal.arr
          [JVal.obj [("a", JVal.num 1)], JVal.obj [("b", JVal.num 2)],
           JVal.obj [("a", JVal.num 3), ("c", JVal.num 4)]])) 2)).getD [] :=
  (claim_C3 [("a", JVal.num 1)]
      [JVal.obj [("b", JVal.num 2)], JVal.obj [("a", JVal.num 3), ("c", JVal.num 4)]] 2).2.2.1
    [("a", JVal.num 1), ("b", JVal.str ""), ("c", JVal.str "")]
    (List.mem_cons_self _ _)

/-! Helper lemmas about rows built by the XML table path. -/

theorem keys_setIfPresent (k v : String) (r : List (String × String)) :
    (setIfPresent k v r).map Prod.fst = r.map Prod.fst := by
  induction r with
  | nil => rfl
  | cons p t ih =>
    simp only [setIfPresent, List.map_cons] at ih ⊢
    by_cases h : p.1 = k
    · simp only [h, if_true, ih]
    · simp only [h, if_false, ih]

theorem keys_foldl_pres {β : Type} (step : List (String × String) → β → List (String × String)) :
    ∀ (l : List β),
    (∀ x ∈ l, ∀ row, (step row x).map Prod.fst = row.map Prod.fst) →
    ∀ r, (l.foldl step r).map Prod.fst = r.map Prod.fst := by
  intro l
  induction l with
  | nil => intro _ r; rfl
  | cons x xs ih =>
    intro h r
    rw [List.foldl_cons,
      ih (fun y hy row => h y (List.mem_cons_of_mem _ hy) row) (step r x),
      h x (List.mem_cons_self _ _) r]

theorem rlookup_foldl_pres {β : Type}
    (step : List (String × String) → β → List (String × String)) (c : String) :
    ∀ (l : List β),
    (∀ x ∈ l, ∀ row, rlookup (step row x) c = rlookup row c) →
    ∀ r, rlookup (l.foldl step r) c = rlookup r c := by
  intro l
  induction l with
  | nil => intro _ r; rfl
  | cons x xs ih =>
    intro h r
    rw [List.foldl_cons,
      ih (fun y hy row => h y (List.mem_cons_of_mem _ hy) row) (step r x),
      h x (List.mem_cons_self _ _) r]

theorem rlookup_setIfPresent_ne (k v c : String) (r : List (String × String)) (h : c ≠ k) :
    rlookup (setIfPresent k v r) c = rlookup r c := by
  induction r with
  | nil => rfl
  | cons p t ih =>
    simp only [setIfPresent, List.map_cons] at ih ⊢
    by_cases hk : p.1 = k
    · rw [if_pos hk]
      have h1 : (k == c) = false := beq_eq_false_iff_ne.mpr (fun he => h he.symm)
      have h2 : (p.1 == c) = false := by rw [hk]; exact h1
      simp only [rlookup, h1, h2, Bool.false_eq_true, if_false]
      exact ih
    · rw [if_neg hk]
      by_cases hc : ((p.1 == c) = true)
      · simp [rlookup, hc]
      · simp only [rlookup, hc, if_false]
        exact ih

theorem rlookup_setIfPresent_self (k v : String) (r : List (String × String))
    (h : k ∈ r.map Prod.fst) : rlookup (setIfPresent k v r) k = some v := by
  induction r with
  | nil => simp at h
  | cons p t ih =>
    simp only [List.map_cons, List.mem_cons] at h
    simp only [setIfPresent, List.map_cons]
    by_cases hk : p.1 = k
    · rw [if_pos hk]
      simp [rlookup]
    · rw [if_neg hk]
      have h' : k ∈ t.map Prod.fst := by
        rcases h with he | hm
        · exact absurd he.symm hk
        · exact hm
      have hc : (p.1 == k) = false := beq_eq_false_iff_ne.mpr hk
      simp only [rlookup, hc, Bool.false_eq_true, if_false]
      exact ih h'

theorem rlookup_init_mem (cols : List String) (c : String) (h : c ∈ cols) :
    rlookup (cols.map (fun x => (x, ""))) c = some "" := by
  induction cols with
  | nil => simp at h
  | cons x t ih =>
    simp only [List.map_cons]
    by_cases hx : ((x == c) = true)
    · simp [rlookup, hx]
    · rcases List.mem_cons.mp h with he | hm
      · exact absurd (by simp [he]) hx
      · simp only [rlookup, hx, if_false]
        exact ih hm

theorem at_ne_text (a : String) : "@" ++ a ≠ "_text" := by
  intro h
  have hd : ("@" ++ a).data.getD 0 ' ' = ("_text" : String).data.getD 0 ' ' :=
    congrArg (fun l => l.getD 0 ' ') (congrArg String.data h)
  have hL : ("@" ++ a).data.getD 0 ' ' = '@' := by rw [String.data_append]; rfl
  have hR : ("_text" : String).data.getD 0 ' ' = '_' := rfl
  rw [hL, hR] at hd
  exact absurd hd (by decide)

theorem tagAt_ne_text (t a : String) : t ++ "@" ++ a ≠ "_text" := by
  intro h
  have hm : ('@' : Char) ∈ ("_text" : String).data := by
    rw [← h, String.data_append, String.data_append]
    exact List.mem_append_left _ (List.mem_append_right _ (by decide))
  exact absurd hm (by decide)

theorem keys_applySubElem (sub : XElem) (r : List (String × String)) :
    (applySubElem r sub).map Prod.fst = r.map Prod.fst := by
  simp only [applySubElem]
  rw [keys_foldl_pres _ sub.attrib (fun p _ row => keys_setIfPresent _ _ _)]
  by_cases ht : stripS sub.text ≠ ""
  · rw [if_pos ht, keys_setIfPresent]
  · rw [if_neg ht]

theorem keys_buildRecord (cols : List String) (ch : XElem) :
    (buildRecord cols ch).map Prod.fst = cols := by
  have h0 : ((cols.map (fun c => (c, ""))).map Prod.fst) = cols := by
    rw [List.map_map]
    have hcomp : (Prod.fst ∘ fun c : String => (c, "")) = id := rfl
    rw [hcomp, List.map_id]
  simp only [buildRecord]
  rw [keys_foldl_pres applySubElem ch.children (fun sub _ row => keys_applySubElem sub row)]
  by_cases ht : stripS ch.text ≠ ""
  · rw [if_pos ht, keys_setIfPresent,
      keys_foldl_pres _ ch.attrib (fun p _ row => keys_setIfPresent _ _ _), h0]
  · rw [if_neg ht,
      keys_foldl_pres _ ch.attrib (fun p _ row => keys_setIfPresent _ _ _), h0]

theorem rlookup_applySubElem_ne (sub : XElem) (c : String) (r : List (String × String))
    (h1 : stripS sub.text ≠ "" → sub.tag ≠ c)
    (h2 : ∀ p ∈ sub.attrib, sub.tag ++ "@" ++ p.1 ≠ c) :
    rlookup (applySubElem r sub) c = rlookup r c := by
  simp only [applySubElem]
  rw [rlookup_foldl_pres _ c sub.attrib
    (fun p hp row => rlookup_setIfPresent_ne _ _ _ _ (fun he => h2 p hp he.symm))]
  by_cases ht : stripS sub.text ≠ ""
  · rw [if_pos ht, rlookup_setIfPresent_ne _ _ _ _ (fun he => h1 ht he.symm)]
  · rw [if_neg ht]

theorem rlookup_buildRecord_notfield (cols : List String) (ch : XElem) (c : String)
    (hc : c ∈ cols) (hnf : c ∉ childFields ch) :
    rlookup (buildRecord cols ch) c = some "" := by
  have hA : ∀ p ∈ ch.attrib, "@" ++ p.1 ≠ c := by
    intro p hp he
    apply hnf
    rw [← he]
    exact List.mem_append_left _ (List.mem_append_left _ (List.mem_map_of_mem _ hp))
  have hB : stripS ch.text ≠ "" → "_text" ≠ c := by
    intro ht he
    apply hnf
    rw [← he]
    exact List.mem_append_left _ (List.mem_append_right _ (by simp [ht]))
  have hC : ∀ sub ∈ ch.children, (stripS sub.text ≠ "" → sub.tag ≠ c)
      ∧ ∀ p ∈ sub.attrib, sub.tag ++ "@" ++ p.1 ≠ c := by
    intro sub hsub
    constructor
    · intro ht he
      apply hnf
      rw [← he]
      refine List.mem_append_right _ (List.mem_flatMap.mpr ⟨sub, hsub, ?_⟩)
      exact List.mem_append_left _ (by simp [ht])
    · intro p hp he
      apply hnf
      rw [← he]
      refine List.mem_append_right _ (List.mem_flatMap.mpr ⟨sub, hsub, ?_⟩)
      exact List.mem_append_right _ (List.mem_map_of_mem _ hp)
  simp only [buildRecord]
  rw [rlookup_foldl_pres applySubElem c ch.children
    (fun sub hsub row => rlookup_applySubElem_ne sub c row (hC sub hsub).1 (hC sub hsub).2)]
  by_cases ht : stripS ch.text ≠ ""
  · rw [if_pos ht, rlookup_setIfPresent_ne _ _ _ _ (fun he => hB ht he.symm),
      rlookup_foldl_pres _ c ch.attrib
        (fun p hp row => rlookup_setIfPresent_ne _ _ _ _ (fun he => hA p hp he.symm))]
    exact rlookup_init_mem cols c hc
  · rw [if_neg ht,
      rlookup_foldl_pres _ c ch.attrib
        (fun p hp row => rlookup_setIfPresent_ne _ _ _ _ (fun he => hA p hp he.symm))]
    exact rlookup_init_mem cols c hc

theorem rlookup_buildRecord_text (cols : List String) (ch : XElem)
    (hmem : "_text" ∈ cols)
    (hsub : ∀ sub ∈ ch.children, stripS sub.text ≠ "" → sub.tag ≠ "_text") :
    rlookup (buildRecord cols ch) "_text" = some (stripS ch.text) := by
  have hpres : ∀ sub ∈ ch.children, ∀ row,
      rlookup (applySubElem row sub) "_text" = rlookup row "_text" := by
    intro sub hs row
    exact rlookup_applySubElem_ne sub "_text" row (hsub sub hs)
      (fun p _ => tagAt_ne_text sub.tag p.1)
  simp only [buildRecord]
  rw [rlookup_foldl_pres applySubElem "_text" ch.children hpres]
  by_cases ht : stripS ch.text ≠ ""
  · rw [if_pos ht]
    apply rlookup_setIfPresent_self
    rw [keys_foldl_pres _ ch.attrib (fun p _ row => keys_setIfPresent _ _ _)]
    rw [List.map_map]
    have hcomp : (Prod.fst ∘ fun c : String => (c, "")) = id := rfl
    rw [hcomp, List.map_id]
    exact hmem
  · rw [if_neg ht,
      rlookup_foldl_pres _ "_text" ch.attrib
        (fun p hp row => rlookup_setIfPresent_ne _ _ _ _ (fun he => at_ne_text p.1 he.symm)),
      rlookup_init_mem cols _ hmem]
    have ht2 : stripS ch.text = "" := by
      by_contra hcon
      exact ht hcon
    rw [ht2]

theorem view_xml_table (s : String) (root : XElem) (c0 : XElem) (cs : List XElem) (cap : Nat)
    (hch : root.children = c0 :: cs)
    (hhom : ((c0 :: cs).take 10).all (fun c => c.tag == c0.tag) = true) :
    view_xml (XmlOutcome.ok s root) cap = ViewResult.table
      (((c0 :: cs).take cap).map (buildRecord
        (sortedDedup (((c0 :: cs).take (min 50 (c0 :: cs).length)).flatMap childFields))))
      (sortedDedup (((c0 :: cs).take (min 50 (c0 :: cs).length)).flatMap childFields))
      (((c0 :: cs).take cap).map (buildRecord
        (sortedDedup (((c0 :: cs).take (min 50 (c0 :: cs).length)).flatMap childFields)))).length
      (decide ((c0 :: cs).length > cap)) cap := by
  simp only [view_xml, hch, hhom]
  exact if_pos trivial

/-- Claim C5: a root with children whose first ten share one tag yields a
table result; differing tags within the first ten yield a raw-XML view
with structure mixed carrying the full original text; a childless root
yields a raw-XML view with structure simple; and the five-item example
with a `name` sub-element yields a table whose columns include `name`. -/
theorem claim_C5 (s : String) (root : XElem) (cap : Nat) :
    (∀ (c0 : XElem) (cs : List XElem),
      root.children = c0 :: cs →
      ((c0 :: cs).take 10).all (fun c => c.tag == c0.tag) = true →
      ∃ d cols total tr, view_xml (XmlOutcome.ok s root) cap
        = ViewResult.table d cols total tr cap)
  ∧ (∀ (c0 : XElem) (cs : List XElem),
      root.children = c0 :: cs →
      ((c0 :: cs).take 10).all (fun c => c.tag == c0.tag) = false →
      view_xml (XmlOutcome.ok s root) cap
        = ViewResult.xml_raw s root.tag "mixed" (some (c0 :: cs).length) none)
  ∧ (root.children = [] →
      view_xml (XmlOutcome.ok s root) cap
        = ViewResult.xml_raw s root.tag "simple" none (some (decide (stripS root.text ≠ ""))))
  ∧ tableColumns (view_xml (XmlOutcome.ok "doc"
        (XElem.mk "items" [] "" (List.replicate 5 (XElem.mk "item" [] ""
          [XElem.mk "name" [] "Widget" []])))) 1000)
      = some ["name"] := by
  refine ⟨?_, ?_, ?_, ?_⟩
  · intro c0 cs hch hhom
    exact ⟨_, _, _, _, view_xml_table s root c0 cs cap hch hhom⟩
  · intro c0 cs hch hhom
    simp only [view_xml, hch, hhom]
    exact if_neg (by simp)
  · intro hch
    simp only [view_xml, hch]
  · rfl

theorem claim_C5_wit :
    (∃ d cols total tr, view_xml (XmlOutcome.ok "d"
        (XElem.mk "r" [] "" [XElem.mk "i" [] "" [], XElem.mk "i" [] "" []])) 7
      = ViewResult.table d cols total tr 7)
    ∧ view_xml (XmlOutcome.ok "d"
        (XElem.mk "r" [] "" [XElem.mk "a" [] "" [], XElem.mk "b" [] "" []])) 7
      = ViewResult.xml_raw "d" "r" "mixed" (some 2) none
    ∧ view_xml (XmlOutcome.ok "d" (XElem.mk "r" [] " x " [])) 7
      = ViewResult.xml_raw "d" "r" "simple" none (some true) := by
  refine ⟨?_, ?_, ?_⟩
  · exact (claim_C5 "d" (XElem.mk "r" [] "" [XElem.mk "i" [] "" [], XElem.mk "i" [] "" []]) 7).1
      (XElem.mk "i" [] "" []) [XElem.mk "i" [] "" []] rfl rfl
  · exact (claim_C5 "d" (XElem.mk "r" [] "" [XElem.mk "a" [] "" [], XElem.mk "b" [] "" []]) 7).2.1
      (XElem.mk "a" [] "" []) [XElem.mk "b" [] "" []] rfl rfl
  · exact ((claim_C5 "d" (XElem.mk "r" [] " x " []) 7).2.2.1 rfl).trans rfl

/-- Claim C6: in the XML table path the column set is the sorted union
of the fields sampled from only the first `min(50, childCount)` children
(a field absent from the first fifty children yields no column); rows
are built per displayed child with every discovered column present,
empty string for columns outside the fields of that child, and fields
outside the column set ignored (row keys equal the column list);
truncation is `childCount > rowCap`. -/
theorem claim_C6 (s : String) (root : XElem) (cap : Nat) (c0 : XElem) (cs : List XElem)
    (hch : root.children = c0 :: cs)
    (hhom : ((c0 :: cs).take 10).all (fun c => c.tag == c0.tag) = true) :
    (∀ f, f ∈ (tableColumns (view_xml (XmlOutcome.ok s root) cap)).getD []
        ↔ ∃ c ∈ (c0 :: cs).take (min 50 (c0 :: cs).length), f ∈ childFields c)
  ∧ (∀ f, (∀ c ∈ (c0 :: cs).take 50, f ∉ childFields c) →
      f ∉ (tableColumns (view_xml (XmlOutcome.ok s root) cap)).getD [])
  ∧ List.Pairwise (fun a b => strLt a b = true)
      ((tableColumns (view_xml (XmlOutcome.ok s root) cap)).getD [])
  ∧ tableData (view_xml (XmlOutcome.ok s root) cap)
      = some (((c0 :: cs).take cap).map
          (buildRecord ((tableColumns (view_xml (XmlOutcome.ok s root) cap)).getD [])))
  ∧ (∀ row ∈ (tableData (view_xml (XmlOutcome.ok s root) cap)).getD [],
      row.map Prod.fst = (tableColumns (view_xml (XmlOutcome.ok s root) cap)).getD [])
  ∧ (∀ ch ∈ (c0 :: cs).take cap,
      ∀ col ∈ (tableColumns (view_xml (XmlOutcome.ok s root) cap)).getD [],
      col ∉ childFields ch →
      rlookup (buildRecord ((tableColumns (view_xml (XmlOutcome.ok s root) cap)).getD []) ch) col
        = some "")
  ∧ tableTruncated (view_xml (XmlOutcome.ok s root) cap)
      = some (decide ((c0 :: cs).length > cap)) := by
  rw [view_xml_table s root c0 cs cap hch hhom]
  have htake : (c0 :: cs).take (min 50 (c0 :: cs).length) = (c0 :: cs).take 50 := by
    rw [← List.take_take, List.take_length]
  refine ⟨?_, ?_, ?_, rfl, ?_, ?_, rfl⟩
  · intro f
    show f ∈ sortedDedup _ ↔ _
    rw [mem_sortedDedup]
    exact List.mem_flatMap
  · intro f hf hmem
    have hmem2 : f ∈ ((c0 :: cs).take (min 50 (c0 :: cs).length)).flatMap childFields := by
      have := (mem_sortedDedup _ f).mp hmem
      exact this
    obtain ⟨c, hc, hfc⟩ := List.mem_flatMap.mp hmem2
    rw [htake] at hc
    exact hf c hc hfc
  · exact pairwise_sortedDedup _
  · intro row hrow
    obtain ⟨ch, hchm, heq⟩ := List.mem_map.mp hrow
    rw [← heq]
    exact keys_buildRecord _ ch
  · intro ch hchm col hcol hnf
    exact rlookup_buildRecord_notfield _ ch col hcol hnf

theorem claim_C6_wit :
    tableTruncated (view_xml (XmlOutcome.ok "d"
        (XElem.mk "r" [] "" [XElem.mk "i" [] "" []])) 9) = some false
    ∧ "zzz" ∉ (tableColumns (view_xml (XmlOutcome.ok "d"
        (XElem.mk "r" [] "" [XElem.mk "i" [] "" []])) 9)).getD [] := by
  have h := claim_C6 "d" (XElem.mk "r" [] "" [XElem.mk "i" [] "" []]) 9
    (XElem.mk "i" [] "" []) [] rfl rfl
  refine ⟨h.2.2.2.2.2.2.trans rfl, ?_⟩
  refine h.2.1 "zzz" ?_
  intro c hc
  have hc2 : c = XElem.mk "i" [] "" [] := by
    rcases List.mem_singleton.mp hc with rfl
    rfl
  rw [hc2]
  intro hmem
  simp [childFields, stripS, XElem.attrib, XElem.children, XElem.text] at hmem

/-- Claim C10 counterexample: a child with direct text " hi " whose
sub-element is itself tagged `_text` (with text "sub") produces a row
whose `_text` value is "sub", not the stripped direct text "hi". -/
theorem claim_C10_cex :
    tableData (view_xml (XmlOutcome.ok "d"
        (XElem.mk "items" [] ""
          [XElem.mk "item" [] " hi " [XElem.mk "_text" [] "sub" []]])) 1000)
      = some [[("_text", "sub")]]
    ∧ stripS " hi " = "hi"
    ∧ ("sub" : String) ≠ "hi" := by
  refine ⟨rfl, rfl, by decide⟩

/-- Claim C10 (amended): whenever a sampled child among the first
`min(50, childCount)` children has non-empty stripped direct text, a
column `_text` is added; and whenever `_text` is a column, a displayed
child none of whose sub-elements is itself tagged `_text` with non-empty
stripped text gets the stripped direct text of the child (empty string
when absent) as its row value of `_text` — a sub-element tagged `_text`
with non-empty text overwrites that value. -/
theorem claim_C10 (s : String) (root : XElem) (cap : Nat) (c0 : XElem) (cs : List XElem)
    (hch : root.children = c0 :: cs)
    (hhom : ((c0 :: cs).take 10).all (fun c => c.tag == c0.tag) = true) :
    ((∃ c ∈ (c0 :: cs).take (min 50 (c0 :: cs).length), stripS c.text ≠ "") →
      "_text" ∈ (tableColumns (view_xml (XmlOutcome.ok s root) cap)).getD [])
  ∧ (∀ ch ∈ (c0 :: cs).take cap,
      "_text" ∈ (tableColumns (view_xml (XmlOutcome.ok s root) cap)).getD [] →
      (∀ sub ∈ ch.children, stripS sub.text ≠ "" → sub.tag ≠ "_text") →
      rlookup (buildRecord ((tableColumns (view_xml (XmlOutcome.ok s root) cap)).getD []) ch)
          "_text"
        = some (stripS ch.text))
  ∧ tableData (view_xml (XmlOutcome.ok s root) cap)
      = some (((c0 :: cs).take cap).map
          (buildRecord ((tableColumns (view_xml (XmlOutcome.ok s root) cap)).getD []))) := by
  rw [view_xml_table s root c0 cs cap hch hhom]
  refine ⟨?_, ?_, rfl⟩
  · rintro ⟨c, hc, ht⟩
    show "_text" ∈ sortedDedup _
    rw [mem_sortedDedup]
    refine List.mem_flatMap.mpr ⟨c, hc, ?_⟩
    exact List.mem_append_left _ (List.mem_append_right _ (by simp [ht]))
  · intro ch hchm hmem hsub
    exact rlookup_buildRecord_text _ ch hmem hsub

theorem claim_C10_wit :
    "_text" ∈ (tableColumns (view_xml (XmlOutcome.ok "d"
        (XElem.mk "r" [] "" [XElem.mk "item" [] " hi " []])) 9)).getD []
    ∧ rlookup (buildRecord ((tableColumns (view_xml (XmlOutcome.ok "d"
        (XElem.mk "r" [] "" [XElem.mk "item" [] " hi " []])) 9)).getD [])
        (XElem.mk "item" [] " hi " [])) "_text" = some "hi" := by
  have h := claim_C10 "d" (XElem.mk "r" [] "" [XElem.mk "item" [] " hi " []]) 9
    (XElem.mk "item" [] " hi " []) [] rfl rfl
  have hcol : "_text" ∈ (tableColumns (view_xml (XmlOutcome.ok "d"
      (XElem.mk "r" [] "" [XElem.mk "item" [] " hi " []])) 9)).getD [] :=
    h.1 ⟨XElem.mk "item" [] " hi " [], List.mem_singleton.mpr rfl, by decide⟩
  refine ⟨hcol, ?_⟩
  have hv := h.2.1 (XElem.mk "item" [] " hi " []) (List.mem_singleton.mpr rfl) hcol
    (by intro sub hs; simp [XElem.children] at hs)
  exact hv.trans rfl

/-! Helper lemmas about the hex dump of the raw decoder. -/

theorem hex2_length (b : Nat) : (hex2 b).length = 2 := rfl

theorem hex8_length (i : Nat) : (hex8 i).length = 8 := rfl

theorem padRight_length (w : Nat) (s : String) (h : s.length ≤ w) :
    (padRight w s).length = w := by
  rw [padRight, String.length_append]
  have hrep : (String.mk (List.replicate (w - s.length) ' ')).length = w - s.length := by
    show (List.replicate (w - s.length) ' ').length = _
    exact List.length_replicate _ _
  rw [hrep]
  omega

theorem hexPart_length_le (chunk : List Nat) : (hexPart chunk).length ≤ 3 * chunk.length := by
  induction chunk with
  | nil => simp [hexPart, joinSep]
  | cons b t ih =>
    cases t with
    | nil =>
      have h2 : (hex2 b).length = 2 := rfl
      simp only [hexPart, List.map_cons, List.map_nil, joinSep, List.length_cons,
        List.length_nil]
      omega
    | cons b2 t2 =>
      simp only [hexPart, List.map_cons, List.length_cons] at ih ⊢
      simp only [joinSep]
      rw [String.length_append, String.length_append]
      have h2 : (hex2 b).length = 2 := rfl
      have h1 : (" " : String).length = 1 := rfl
      omega

theorem hexChunk_length_le (dc : List Nat) (k : Nat) : (hexChunk dc k).length ≤ 16 := by
  rw [hexChunk, List.length_take]
  exact Nat.min_le_left _ _

theorem asciiPart_getD (chunk : List Nat) (j : Nat) (hj : j < chunk.length) :
    (asciiPart chunk).data.getD j ' '
      = (if (32 ≤ chunk.getD j 0 && chunk.getD j 0 ≤ 126) = true
          then Char.ofNat (chunk.getD j 0) else '.') := by
  show (chunk.map (fun b => if 32 ≤ b && b ≤ 126 then Char.ofNat b else '.')).getD j ' ' = _
  induction chunk generalizing j with
  | nil => simp at hj
  | cons b t ih =>
    cases j with
    | zero => rfl
    | succ m =>
      simp only [List.map_cons, List.getD_cons_succ]
      exact ih m (by simpa using hj)

theorem flatMap_hexChunk_range (l : List Nat) (n : Nat) :
    (List.range n).flatMap (fun k => hexChunk l k) = l.take (16 * n) := by
  induction n with
  | zero => rfl
  | succ m ih =>
    rw [List.range_succ, List.flatMap_append, ih]
    simp only [List.flatMap_cons, List.flatMap_nil, List.append_nil, hexChunk]
    rw [(List.take_add l (16 * m) 16).symm]
    congr 1

theorem hexLineCount_ge (l : List Nat) : min l.length 1024 ≤ 16 * hexLineCount l := by
  unfold hexLineCount
  have h1 := Nat.div_add_mod (min l.length 1024 + 15) 16
  have h2 := Nat.mod_lt (min l.length 1024 + 15) (show 0 < 16 by decide)
  omega

theorem flatMap_hexChunk_eq (l : List Nat) :
    (List.range (hexLineCount l)).flatMap (fun k => hexChunk l k) = l.take 1024 := by
  rw [flatMap_hexChunk_range]
  by_cases hl : l.length ≤ 1024
  · have hmin : min l.length 1024 = l.length := Nat.min_eq_left hl
    have hge : l.length ≤ 16 * hexLineCount l := by
      have := hexLineCount_ge l
      omega
    rw [List.take_of_length_le hge, List.take_of_length_le hl]
  · have hcount : hexLineCount l = 64 := by
      unfold hexLineCount
      rw [Nat.min_eq_right (Nat.le_of_lt (Nat.lt_of_not_le hl))]
    rw [hcount]

theorem hexLineCount_take (l : List Nat) : hexLineCount (l.take 1024) = hexLineCount l := by
  unfold hexLineCount
  rw [List.length_take]
  congr 1
  omega

theorem hexChunk_take (l : List Nat) (k : Nat) (hk : k < hexLineCount l) :
    hexChunk (l.take 1024) k = hexChunk l k := by
  by_cases hl : l.length ≤ 1024
  · rw [List.take_of_length_le hl]
  · have hcount : hexLineCount l = 64 := by
      unfold hexLineCount
      rw [Nat.min_eq_right (Nat.le_of_lt (Nat.lt_of_not_le hl))]
    rw [hcount] at hk
    show ((l.take 1024).drop (16 * k)).take 16 = hexChunk l k
    rw [List.drop_take, List.take_take, hexChunk]
    congr 1
    omega

theorem hexLines_take (l : List Nat) : hexLines (l.take 1024) = hexLines l := by
  unfold hexLines
  rw [hexLineCount_take]
  refine List.map_congr_left ?_
  intro k hk
  rw [hexChunk_take l k (List.mem_range.mp hk)]

/-- Claim C8: the raw decoder truncates to the first `byteCap` bytes with
`truncated = (originalSize > byteCap)`; when the capped slice is not
valid UTF-8 it emits a hex dump that renders only the first 1024 bytes
of the capped slice (line `k` shows the chunk at offset `16*k`, the
chunks have at most 16 bytes each and concatenate to exactly that
1024-byte prefix), each line carrying an 8-digit offset, a hex column
padded to the fixed width 48, and an ASCII gutter that keeps printable
bytes (0x20..0x7E) and substitutes a dot for every other byte. -/
theorem claim_C8 (content : List Nat) (path : String) (cap : Nat)
    (_hb : ∀ b ∈ content, b < 256) :
    ((rawInfo (view_raw content path cap)).map FileInfo.truncated
      = some (decide (content.length > cap)))
  ∧ (utf8Decode (content.take cap) = none →
      rawBinContent (view_raw content path cap)
        = some (joinSep "\n" (hexLines (content.take cap)))
      ∧ hexLines ((content.take cap).take 1024) = hexLines (content.take cap)
      ∧ (List.range (hexLineCount (content.take cap))).flatMap
          (fun k => hexChunk (content.take cap) k) = (content.take cap).take 1024
      ∧ hexLineCount (content.take cap) = (min (content.take cap).length 1024 + 15) / 16
      ∧ hexLines (content.take cap)
          = (List.range (hexLineCount (content.take cap))).map
              (fun k => hexLine (16 * k) (hexChunk (content.take cap) k))
      ∧ (∀ k, k < hexLineCount (content.take cap) →
          (hexChunk (content.take cap) k).length ≤ 16
          ∧ (hex8 (16 * k)).length = 8
          ∧ (padRight 48 (hexPart (hexChunk (content.take cap) k))).length = 48
          ∧ (∀ j, j < (hexChunk (content.take cap) k).length →
              (¬ (32 ≤ (hexChunk (content.take cap) k).getD j 0
                  ∧ (hexChunk (content.take cap) k).getD j 0 ≤ 126) →
                (asciiPart (hexChunk (content.take cap) k)).data.getD j ' ' = '.')
              ∧ ((32 ≤ (hexChunk (content.take cap) k).getD j 0
                  ∧ (hexChunk (content.take cap) k).getD j 0 ≤ 126) →
                (asciiPart (hexChunk (content.take cap) k)).data.getD j ' '
                  = Char.ofNat ((hexChunk (content.take cap) k).getD j 0))))) := by
  have hdc : (if content.length > cap then content.take cap else content)
      = content.take cap := by
    by_cases h : content.length > cap
    · rw [if_pos h]
    · rw [if_neg h, List.take_of_length_le (Nat.le_of_not_lt h)]
  constructor
  · cases hu : utf8Decode (content.take cap) with
    | some chars => simp [view_raw, hdc, hu, rawInfo]
    | none => simp [view_raw, hdc, hu, rawInfo]
  · intro h
    refine ⟨?_, hexLines_take (content.take cap), flatMap_hexChunk_eq (content.take cap),
      rfl, rfl, ?_⟩
    · simp [view_raw, hdc, h, rawBinContent]
    · intro k hk
      refine ⟨hexChunk_length_le (content.take cap) k, hex8_length (16 * k), ?_, ?_⟩
      · refine padRight_length 48 _ ?_
        have h1 := hexPart_length_le (hexChunk (content.take cap) k)
        have h2 := hexChunk_length_le (content.take cap) k
        omega
      · intro j hj
        constructor
        · intro hno
          have hc : ¬ ((32 ≤ (hexChunk (content.take cap) k).getD j 0
              && (hexChunk (content.take cap) k).getD j 0 ≤ 126) = true) := by
            simp only [Bool.and_eq_true, decide_eq_true_eq]
            exact hno
          rw [asciiPart_getD _ j hj, if_neg hc]
        · intro hyes
          have hc : (32 ≤ (hexChunk (content.take cap) k).getD j 0
              && (hexChunk (content.take cap) k).getD j 0 ≤ 126) = true := by
            simp only [Bool.and_eq_true, decide_eq_true_eq]
            exact hyes
          rw [asciiPart_getD _ j hj, if_pos hc]

theorem claim_C8_wit :
    (rawInfo (view_raw [255] "x.bin" 50000)).map FileInfo.truncated = some false
    ∧ rawBinContent (view_raw [255] "x.bin" 50000)
        = some (joinSep "\n" (hexLines [255])) := by
  have h := claim_C8 [255] "x.bin" 50000 (by decide)
  refine ⟨h.1.trans rfl, ?_⟩
  exact ((h.2 rfl).1).trans rfl
